import Mathlib

/-!
Shallow embedding of the battery discharge analyzer
(`src/app.py` and `src/test.py`): the peak-to-zero cycle detector
`process_discharge_data`, the filename offset helper
`get_start_cycle_from_name`, and the batch numbering policy.
Voltages are modelled as rationals extended with a NaN element whose
comparisons are always false (IEEE semantics); timestamps are rationals.
-/

namespace Battery

/-- A voltage value: a rational number or NaN (malformed data). -/
inductive Val where
  | num : ℚ → Val
  | nan : Val
deriving DecidableEq

/-- Strict greater-than with IEEE NaN semantics: any comparison with NaN is
false. Embeds the Python `>` on floats as used in `process_discharge_data`. -/
def vgt : Val → Val → Bool
  | Val.num a, Val.num b => decide (b < a)
  | _, _ => false

/-- Less-or-equal with IEEE NaN semantics. -/
def vle : Val → Val → Bool
  | Val.num a, Val.num b => decide (a ≤ b)
  | _, _ => false

/-- One (timestamp, voltage) row, timestamps in minutes
(`src/app.py` lines 21-22). -/
structure Sample where
  t : ℚ
  v : Val
deriving DecidableEq

/-- Ordering of samples by timestamp, the key used by
`df.sort_values(by=time_col)`. -/
def sleq (a b : Sample) : Prop := a.t ≤ b.t

instance : DecidableRel sleq := fun a b => inferInstanceAs (Decidable (a.t ≤ b.t))

instance : IsTotal Sample sleq := ⟨fun a b => le_total a.t b.t⟩

instance : IsTrans Sample sleq := ⟨fun _ _ _ h1 h2 => le_trans h1 h2⟩

/-- Step 2 of the detector: sort rows ascending by timestamp
(`df.sort_values`, modelled as a stable sort as the spec states). -/
def sortSamples (l : List Sample) : List Sample := List.insertionSort sleq l

/-- State of the scan in `process_discharge_data`: the two recorded
timestamp lists and the mode flag, with the source's names. -/
structure DetState where
  peaks_arr : List ℚ
  zeros_arr : List ℚ
  looking_for_peak : Bool
deriving DecidableEq

/-- Initial state: empty lists, seeking a peak (`src/app.py` lines 25-29). -/
def initState : DetState := ⟨[], [], true⟩

/-- Peak test of the interior scan (`src/app.py` line 45):
strict local maximum that also exceeds the 0.5 threshold. -/
def peakCond (prev_v current_v next_v : Val) : Bool :=
  vgt current_v prev_v && vgt current_v next_v && vgt current_v (Val.num (1/2))

/-- Zero test of the interior scan (`src/app.py` line 50):
voltage at most 0.05. -/
def zeroCond (current_v : Val) : Bool := vle current_v (Val.num (1/20))

/-- One interior-scan iteration (`src/app.py` lines 41-52), mode-gated:
only one branch is evaluated per index. -/
def stepSeek (st : DetState) (prev_v current_v next_v : Val) (current_t : ℚ) :
    DetState :=
  if st.looking_for_peak then
    if peakCond prev_v current_v next_v then
      ⟨st.peaks_arr ++ [current_t], st.zeros_arr, false⟩
    else st
  else
    if zeroCond current_v then
      ⟨st.peaks_arr, st.zeros_arr ++ [current_t], true⟩
    else st

/-- Interior scan over indices 1 .. count-2 (`for i in range(1, count - 1)`),
carried as a walk holding the previous voltage and stopping before the
last sample (each index needs both neighbours). -/
def mainLoop : Val → List Sample → DetState → DetState
  | _, [], st => st
  | _, [_], st => st
  | prev_v, cur :: next :: tail, st =>
      mainLoop cur.v (next :: tail) (stepSeek st prev_v cur.v next.v cur.t)

/-- Left-edge special case (`src/app.py` lines 32-34), given the first two
sorted samples. -/
def leftEdge (x0 x1 : Sample) : DetState :=
  if vgt x0.v (Val.num (1/2)) && vgt x0.v x1.v then ⟨[x0.t], [], false⟩
  else initState

/-- Right-edge special case (`src/app.py` lines 55-57), given the last
sorted sample; the mode flag is left unchanged, as in the source. -/
def rightEdge (st : DetState) (lastS : Sample) : DetState :=
  if !st.looking_for_peak && zeroCond lastS.v then
    ⟨st.peaks_arr, st.zeros_arr ++ [lastS.t], st.looking_for_peak⟩
  else st

/-- Full scan of an already sorted series: left edge, interior scan, right
edge. With fewer than two samples no check fires (`count > 1` guards the
left edge, the loop range is empty, and the mode still seeks a peak at the
right edge). -/
def scanSorted : List Sample → DetState
  | [] => initState
  | [_] => initState
  | x0 :: x1 :: rest =>
      rightEdge (mainLoop x0.v (x1 :: rest) (leftEdge x0 x1)) (rest.getLastD x1)

/-- Positional pairing of the recorded lists, truncated to the shorter one
(`min_len = min(len(peaks_arr), len(zeros_arr))`). -/
def pairCycles (st : DetState) : List (ℚ × ℚ) := st.peaks_arr.zip st.zeros_arr

/-- Discharge durations in seconds, `(end - start) * 60` per pair
(`src/app.py` lines 63-69). -/
def durations (samples : List Sample) : List ℚ :=
  (pairCycles (scanSorted (sortSamples samples))).map (fun pz => (pz.2 - pz.1) * 60)

/-- Cycle records of `src/app.py`: cycle number `k + 1` with its duration. -/
def detect (samples : List Sample) : List (ℕ × ℚ) :=
  (durations samples).enum.map (fun kd => (kd.1 + 1, kd.2))

/-- Cycle records of the batch variant in `src/test.py`: numbering starts at
`forced_start_cycle` when given, else 1 (`start_num + k`). -/
def detectNumbered (forced : Option ℕ) (samples : List Sample) : List (ℕ × ℚ) :=
  (durations samples).enum.map (fun kd => (forced.getD 1 + kd.1, kd.2))

/-- Substring test on character lists, embedding Python's `needle in hay`. -/
def hasSubstr (needle : List Char) : List Char → Bool
  | [] => needle.isPrefixOf []
  | c :: cs => needle.isPrefixOf (c :: cs) || hasSubstr needle cs

/-- Column resolution for time: `next((c for c in cols if 'ime' in c), None)`. -/
def findTimeCol (cols : List (List Char)) : Option (List Char) :=
  cols.find? (fun c => hasSubstr ("ime".toList) c)

/-- Column resolution for voltage: `'oltage' in c or 'otential' in c`. -/
def findVoltCol (cols : List (List Char)) : Option (List Char) :=
  cols.find? (fun c => hasSubstr ("oltage".toList) c || hasSubstr ("otential".toList) c)

/-- An in-memory table: its column names and, for a chosen pair of columns,
the (time, voltage) series those columns hold. -/
structure Frame where
  colNames : List (List Char)
  seriesOf : List Char → List Char → List Sample

/-- Rendering of the available column list inside the error message of
`src/app.py`. -/
def renderCols : List (List Char) → List Char
  | [] => []
  | c :: cs => c ++ (',' :: ' ' :: renderCols cs)

/-- Error message of `src/app.py` line 17: it names the available column set. -/
def appErrMsg (cols : List (List Char)) : List Char :=
  ("Could not detect Time or Voltage columns. Found: ").toList ++ renderCols cols

/-- Error message of `src/test.py` line 21: it names the file, not the columns. -/
def testErrMsg (filename : List Char) : List Char :=
  ("Error in ").toList ++ filename ++ (": Could not detect columns.").toList

/-- Embedding of `process_discharge_data` from `src/app.py`. -/
def process_discharge_data (f : Frame) : Except (List Char) (List (ℕ × ℚ)) :=
  match findTimeCol f.colNames, findVoltCol f.colNames with
  | some tc, some vc => Except.ok (detect (f.seriesOf tc vc))
  | _, _ => Except.error (appErrMsg f.colNames)

/-- Embedding of `process_discharge_data` from `src/test.py`, the batch
variant taking the filename and an optional forced start cycle. -/
def process_discharge_data_multi (f : Frame) (filename : List Char)
    (forced : Option ℕ) : Except (List Char) (List (ℕ × ℚ)) :=
  match findTimeCol f.colNames, findVoltCol f.colNames with
  | some tc, some vc => Except.ok (detectNumbered forced (f.seriesOf tc vc))
  | _, _ => Except.error (testErrMsg filename)

/-- Fuel-indexed scan for the maximal decimal-digit runs, embedding
`re.findall` over the digit pattern in `src/test.py` line 9; the fuel is
the length of the list, always sufficient. -/
def digitRunsAux : ℕ → List Char → List (List Char)
  | 0, _ => []
  | _ + 1, [] => []
  | n + 1, c :: cs =>
      if c.isDigit then
        (c :: cs.takeWhile Char.isDigit) :: digitRunsAux n (cs.dropWhile Char.isDigit)
      else
        digitRunsAux n cs

/-- Digit runs of a string, left to right (`re.findall`). -/
def digitRuns (l : List Char) : List (List Char) := digitRunsAux l.length l

/-- Decimal parsing of a digit run (Python `int`). -/
def digitsToNat (ds : List Char) : ℕ :=
  ds.foldl (fun acc c => 10 * acc + (c.toNat - 48)) 0

/-- Embedding of `get_start_cycle_from_name` from `src/test.py`:
first digit run parsed as an integer, else the default 1. -/
def get_start_cycle_from_name (filename : List Char) : ℕ :=
  match digitRuns filename with
  | ds :: _ => digitsToNat ds
  | [] => 1

/-- First maximal digit run by a direct left-to-right scan; stated from the
specification's words, to compare against the `re.findall` based code. -/
def firstDigitRunSpec : List Char → Option (List Char)
  | [] => none
  | c :: cs =>
      if c.isDigit then some (c :: cs.takeWhile Char.isDigit)
      else firstDigitRunSpec cs

/-- Per-file cycle numbers `start_num + k` for `k < n`
(`src/test.py` line 64). -/
def numberFile (start_num n : ℕ) : List ℕ :=
  (List.range n).map (fun k => start_num + k)

/-- Modelled from the spec: the continuous-counter batch mode of section 4.2
is not implemented in the sources (the batch loop of `src/test.py` uses the
name-derived mode); a running total `T` starts at 0, each file's cycles are
numbered `T + 1 .. T + n`, then `T` grows by `n`. -/
def assignContinuous : List ℕ → ℕ → List (List ℕ)
  | [], _ => []
  | n :: counts, T => numberFile (T + 1) n :: assignContinuous counts (T + n)

/-- Length relation maintained by the scan: while seeking a peak the two
recorded lists have the same length, while seeking a zero there is exactly
one more peak than zeros. -/
def lenInv (st : DetState) : Prop :=
  st.peaks_arr.length = st.zeros_arr.length + (cond st.looking_for_peak 0 1)

/-- Scan invariant: the recorded lists decompose into a list of correctly
ordered (peak, zero) pairs plus at most one pending peak; while a zero is
sought, the pending peak's timestamp is below every timestamp still to be
scanned (the samples in `rest`). -/
def StInv (st : DetState) (rest : List Sample) : Prop :=
  ∃ pairs : List (ℚ × ℚ), ∃ pending : List ℚ,
    st.peaks_arr = pairs.map Prod.fst ++ pending ∧
    st.zeros_arr = pairs.map Prod.snd ∧
    (∀ pq ∈ pairs, pq.1 ≤ pq.2) ∧
    (st.looking_for_peak = true → pending = []) ∧
    (st.looking_for_peak = false → ∃ p, pending = [p] ∧ ∀ x ∈ rest, p ≤ x.t)

/-- Last element of a list, as a zero-or-one element list. -/
def lastOf (l : List Sample) : List Sample :=
  match l.getLast? with
  | some x => [x]
  | none => []

/-- Shape of the final state: the recorded lists are a pair list, each peak
at or below its positional zero, plus trailing unmatched peaks. -/
def pairsShape (st : DetState) : Prop :=
  ∃ pairs : List (ℚ × ℚ), ∃ pending : List ℚ,
    st.peaks_arr = pairs.map Prod.fst ++ pending ∧
    st.zeros_arr = pairs.map Prod.snd ∧
    (∀ pq ∈ pairs, pq.1 ≤ pq.2)

/-- Strict version of the sample ordering, antisymmetric when the
timestamps involved are distinct. -/
def sltEq (a b : Sample) : Prop := a.t < b.t ∨ a = b

instance : IsAntisymm Sample sltEq :=
  ⟨fun a b hab hba => by
    rcases hab with h1 | h1
    · rcases hba with h2 | h2
      · exact absurd h1 (not_lt.mpr (le_of_lt h2))
      · exact h2.symm
    · exact h1⟩

/-- Example series with one full cycle: peak at t = 1, zero at t = 3/2. -/
def exOneCycle : List Sample :=
  [⟨1/2, Val.num (1/10)⟩, ⟨1, Val.num (9/10)⟩, ⟨3/2, Val.num 0⟩, ⟨2, Val.num 0⟩]

/-- Example series in which the scan records three peaks but only two
zero-crossings (the trace after the third peak never reaches the zero band). -/
def exThreePeaks : List Sample :=
  [⟨0, Val.num 0⟩, ⟨1, Val.num (9/10)⟩, ⟨2, Val.num 0⟩, ⟨3, Val.num (9/10)⟩,
   ⟨4, Val.num 0⟩, ⟨5, Val.num (9/10)⟩, ⟨6, Val.num (2/10)⟩, ⟨7, Val.num (3/10)⟩]

/-- Example series with duplicate timestamps (two samples at t = 1). -/
def exTie : List Sample :=
  [⟨0, Val.num (9/10)⟩, ⟨1, Val.num (95/100)⟩, ⟨1, Val.num 0⟩, ⟨2, Val.num 0⟩]

/-- The same multiset as `exTie` with the two t = 1 samples swapped. -/
def exTieSwapped : List Sample :=
  [⟨0, Val.num (9/10)⟩, ⟨1, Val.num 0⟩, ⟨1, Val.num (95/100)⟩, ⟨2, Val.num 0⟩]

/-- Example series whose last sample has a negative voltage. -/
def exNegative : List Sample :=
  [⟨0, Val.num (9/10)⟩, ⟨1, Val.num (8/10)⟩, ⟨2, Val.num (-1)⟩]

lemma stepSeek_zeros_of_seeking (st : DetState) (pv cv nv : Val) (t : ℚ)
    (h : st.looking_for_peak = true) :
    (stepSeek st pv cv nv t).zeros_arr = st.zeros_arr := by
  simp only [stepSeek, h, if_true]
  split <;> rfl

lemma stepSeek_peaks_of_switch (st : DetState) (pv cv nv : Val) (t : ℚ)
    (h : st.looking_for_peak = true)
    (h2 : (stepSeek st pv cv nv t).looking_for_peak = false) :
    (stepSeek st pv cv nv t).peaks_arr = st.peaks_arr ++ [t] := by
  simp only [stepSeek, h, if_true] at h2 ⊢
  by_cases hc : peakCond pv cv nv = true
  · rw [if_pos hc]
  · rw [if_neg hc] at h2
    rw [h] at h2
    cases h2

lemma stepSeek_lenInv (st : DetState) (pv cv nv : Val) (t : ℚ) (h : lenInv st) :
    lenInv (stepSeek st pv cv nv t) := by
  unfold lenInv at *
  by_cases hs : st.looking_for_peak = true
  · by_cases hc : peakCond pv cv nv = true
    · simp [stepSeek, hs, hc] at h ⊢
      omega
    · simp only [stepSeek, hs, hc, if_true, if_false]
      simpa [hs] using h
  · have hs2 : st.looking_for_peak = false := by simpa using hs
    by_cases hc : zeroCond cv = true
    · simp [stepSeek, hs2, hc] at h ⊢
      omega
    · simp only [stepSeek, hs2, hc, Bool.false_eq_true, if_false]
      simpa [hs2] using h

lemma mainLoop_lenInv : ∀ (pv : Val) (rest : List Sample) (st : DetState),
    lenInv st → lenInv (mainLoop pv rest st)
  | _, [], _, h => h
  | _, [_], _, h => h
  | pv, cur :: next :: tail, st, h =>
      mainLoop_lenInv cur.v (next :: tail) _ (stepSeek_lenInv st pv cur.v next.v cur.t h)

lemma leftEdge_lenInv (x0 x1 : Sample) : lenInv (leftEdge x0 x1) := by
  unfold leftEdge lenInv initState
  split <;> simp

lemma lenInv_zeros_le (st : DetState) (h : lenInv st) :
    st.zeros_arr.length ≤ st.peaks_arr.length := by
  unfold lenInv at h
  cases hs : st.looking_for_peak <;> rw [hs] at h <;> simp at h <;> omega

lemma rightEdge_zeros_le (st : DetState) (x : Sample) (h : lenInv st) :
    (rightEdge st x).zeros_arr.length ≤ (rightEdge st x).peaks_arr.length := by
  unfold lenInv at h
  by_cases hs : st.looking_for_peak = true
  · simp [rightEdge, hs] at h ⊢
    omega
  · have hs2 : st.looking_for_peak = false := by simpa using hs
    by_cases hz : zeroCond x.v = true
    · simp [rightEdge, hs2, hz] at h ⊢
      omega
    · simp [rightEdge, hs2, hz] at h ⊢
      omega

lemma scanSorted_zeros_le (s : List Sample) :
    (scanSorted s).zeros_arr.length ≤ (scanSorted s).peaks_arr.length := by
  match s with
  | [] => simp [scanSorted, initState]
  | [_] => simp [scanSorted, initState]
  | x0 :: x1 :: rest =>
      exact rightEdge_zeros_le _ _ (mainLoop_lenInv _ _ _ (leftEdge_lenInv x0 x1))

lemma StInv_weaken {st : DetState} {r r2 : List Sample}
    (h : StInv st r) (hsub : ∀ x ∈ r2, x ∈ r) : StInv st r2 := by
  obtain ⟨pairs, pending, h1, h2, h3, h4, h5⟩ := h
  refine ⟨pairs, pending, h1, h2, h3, h4, fun hl => ?_⟩
  obtain ⟨p, hp, hb⟩ := h5 hl
  exact ⟨p, hp, fun x hx => hb x (hsub x hx)⟩

lemma stepSeek_StInv (st : DetState) (pv nv : Val) (cur : Sample)
    (rem : List Sample) (h : StInv st (cur :: rem))
    (hcur : ∀ x ∈ rem, cur.t ≤ x.t) :
    StInv (stepSeek st pv cur.v nv cur.t) rem := by
  obtain ⟨pairs, pending, h1, h2, h3, h4, h5⟩ := h
  by_cases hs : st.looking_for_peak = true
  · by_cases hc : peakCond pv cur.v nv = true
    · refine ⟨pairs, [cur.t], ?_, ?_, h3, ?_, ?_⟩
      · simp [stepSeek, hs, hc, h1, h4 hs]
      · simp [stepSeek, hs, hc, h2]
      · intro hl
        simp [stepSeek, hs, hc] at hl
      · intro _
        exact ⟨cur.t, rfl, hcur⟩
    · have heq : stepSeek st pv cur.v nv cur.t = st := by simp [stepSeek, hs, hc]
      rw [heq]
      refine ⟨pairs, pending, h1, h2, h3, h4, fun hl => absurd hs (by simp [hl])⟩
  · have hs2 : st.looking_for_peak = false := by simpa using hs
    obtain ⟨p, hp, hb⟩ := h5 hs2
    by_cases hc : zeroCond cur.v = true
    · refine ⟨pairs ++ [(p, cur.t)], [], ?_, ?_, ?_, ?_, ?_⟩
      · simp [stepSeek, hs2, hc, h1, hp]
      · simp [stepSeek, hs2, hc, h2]
      · intro pq hpq
        rcases List.mem_append.mp hpq with hm | hm
        · exact h3 pq hm
        · have : pq = (p, cur.t) := by simpa using hm
          rw [this]
          exact hb cur (List.mem_cons_self _ _)
      · intro _
        rfl
      · intro hl
        simp [stepSeek, hs2, hc] at hl
    · have heq : stepSeek st pv cur.v nv cur.t = st := by simp [stepSeek, hs2, hc]
      rw [heq]
      exact StInv_weaken ⟨pairs, pending, h1, h2, h3, h4, h5⟩
        (fun x hx => List.mem_cons_of_mem _ hx)

lemma getLast?_cons_eq : ∀ (l : List Sample) (a : Sample),
    (a :: l).getLast? = some (l.getLastD a)
  | [], _ => rfl
  | b :: t, a => by
    rw [List.getLast?_cons_cons, getLast?_cons_eq t b, List.getLastD_cons]

lemma mainLoop_StInv : ∀ (pv : Val) (rest : List Sample) (st : DetState),
    List.Pairwise sleq rest → StInv st rest →
    StInv (mainLoop pv rest st) (lastOf rest)
  | _, [], _, _, h => h
  | _, [_], _, _, h => h
  | pv, cur :: next :: tail, st, hp, h => by
      have hcur : ∀ x ∈ next :: tail, cur.t ≤ x.t :=
        fun x hx => List.rel_of_pairwise_cons hp hx
      have hstep := stepSeek_StInv st pv next.v cur (next :: tail) h hcur
      have ih := mainLoop_StInv cur.v (next :: tail) _ hp.of_cons hstep
      simpa [lastOf, List.getLast?_cons_cons] using ih

lemma rightEdge_pairsShape (st : DetState) (x : Sample) (h : StInv st [x]) :
    pairsShape (rightEdge st x) := by
  obtain ⟨pairs, pending, h1, h2, h3, h4, h5⟩ := h
  by_cases hs : st.looking_for_peak = true
  · have heq : rightEdge st x = st := by simp [rightEdge, hs]
    rw [heq]
    exact ⟨pairs, pending, h1, h2, h3⟩
  · have hs2 : st.looking_for_peak = false := by simpa using hs
    obtain ⟨p, hp, hb⟩ := h5 hs2
    by_cases hz : zeroCond x.v = true
    · refine ⟨pairs ++ [(p, x.t)], [], ?_, ?_, ?_⟩
      · simp [rightEdge, hs2, hz, h1, hp]
      · simp [rightEdge, hs2, hz, h2]
      · intro pq hpq
        rcases List.mem_append.mp hpq with hm | hm
        · exact h3 pq hm
        · have : pq = (p, x.t) := by simpa using hm
          rw [this]
          exact hb x (List.mem_cons_self _ _)
    · have heq : rightEdge st x = st := by simp [rightEdge, hs2, hz]
      rw [heq]
      exact ⟨pairs, pending, h1, h2, h3⟩

lemma scanSorted_pairsShape (s : List Sample) (hs : List.Pairwise sleq s) :
    pairsShape (scanSorted s) := by
  match s with
  | [] => exact ⟨[], [], rfl, rfl, by simp⟩
  | [_] => exact ⟨[], [], rfl, rfl, by simp⟩
  | x0 :: x1 :: rest =>
      have hinit : StInv (leftEdge x0 x1) (x1 :: rest) := by
        unfold leftEdge
        split
        · refine ⟨[], [x0.t], by simp, by simp, by simp, by simp, ?_⟩
          intro _
          exact ⟨x0.t, rfl, fun x hx => List.rel_of_pairwise_cons hs hx⟩
        · exact ⟨[], [], rfl, rfl, by simp, fun _ => rfl, by simp [initState]⟩
      have hmain := mainLoop_StInv x0.v (x1 :: rest) _ hs.of_cons hinit
      have hlast : lastOf (x1 :: rest) = [rest.getLastD x1] := by
        unfold lastOf
        rw [getLast?_cons_eq]
      rw [hlast] at hmain
      exact rightEdge_pairsShape _ _ hmain

lemma pairCycles_eq_pairs (st : DetState) {pairs : List (ℚ × ℚ)}
    {pending : List ℚ} (h1 : st.peaks_arr = pairs.map Prod.fst ++ pending)
    (h2 : st.zeros_arr = pairs.map Prod.snd) :
    pairCycles st = pairs := by
  unfold pairCycles
  rw [h1, h2]
  rw [show pairs.map Prod.snd = pairs.map Prod.snd ++ [] from (List.append_nil _).symm]
  rw [List.zip_append (by simp)]
  simp [List.zip_map' Prod.fst Prod.snd]

lemma pairCycles_le_of_shape (st : DetState) (h : pairsShape st) :
    ∀ pq ∈ pairCycles st, pq.1 ≤ pq.2 := by
  obtain ⟨pairs, pending, h1, h2, h3⟩ := h
  rw [pairCycles_eq_pairs st h1 h2]
  exact h3

lemma durations_nonneg_all (samples : List Sample) :
    ∀ d ∈ durations samples, 0 ≤ d := by
  intro d hd
  unfold durations at hd
  obtain ⟨pq, hpq, rfl⟩ := List.mem_map.mp hd
  have hshape := scanSorted_pairsShape (sortSamples samples)
      (List.sorted_insertionSort sleq samples)
  have hle := pairCycles_le_of_shape _ hshape pq hpq
  have hsub : 0 ≤ pq.2 - pq.1 := by linarith
  have : (0 : ℚ) ≤ 60 := by norm_num
  exact mul_nonneg hsub this

lemma stepSeek_peaks_mono (st : DetState) (pv cv nv : Val) (t : ℚ) :
    ∃ l, (stepSeek st pv cv nv t).peaks_arr = st.peaks_arr ++ l := by
  unfold stepSeek
  split
  · split
    · exact ⟨[t], rfl⟩
    · exact ⟨[], by simp⟩
  · split
    · exact ⟨[], by simp⟩
    · exact ⟨[], by simp⟩

lemma mainLoop_peaks_mono : ∀ (pv : Val) (rest : List Sample) (st : DetState),
    ∃ l, (mainLoop pv rest st).peaks_arr = st.peaks_arr ++ l
  | _, [], st => ⟨[], by simp [mainLoop]⟩
  | _, [_], st => ⟨[], by simp [mainLoop]⟩
  | pv, cur :: next :: tail, st => by
      obtain ⟨l1, hl1⟩ := stepSeek_peaks_mono st pv cur.v next.v cur.t
      obtain ⟨l2, hl2⟩ :=
        mainLoop_peaks_mono cur.v (next :: tail) (stepSeek st pv cur.v next.v cur.t)
      refine ⟨l1 ++ l2, ?_⟩
      rw [show mainLoop pv (cur :: next :: tail) st
            = mainLoop cur.v (next :: tail) (stepSeek st pv cur.v next.v cur.t) from rfl,
        hl2, hl1, List.append_assoc]

lemma rightEdge_peaks (st : DetState) (x : Sample) :
    (rightEdge st x).peaks_arr = st.peaks_arr := by
  unfold rightEdge
  split <;> rfl

lemma detect_length_eq_min (samples : List Sample) :
    (detect samples).length
      = min (scanSorted (sortSamples samples)).peaks_arr.length
          (scanSorted (sortSamples samples)).zeros_arr.length := by
  unfold detect durations pairCycles
  simp

lemma detect_getD (samples : List Sample) (k : ℕ)
    (hk : k < (detect samples).length) :
    (detect samples).getD k (0, 0)
      = (k + 1, ((scanSorted (sortSamples samples)).zeros_arr.getD k 0
                 - (scanSorted (sortSamples samples)).peaks_arr.getD k 0) * 60) := by
  have hp : k < (scanSorted (sortSamples samples)).peaks_arr.length := by
    rw [detect_length_eq_min] at hk
    omega
  have hz : k < (scanSorted (sortSamples samples)).zeros_arr.length := by
    rw [detect_length_eq_min] at hk
    omega
  rw [List.getD_eq_getElem?_getD, List.getElem?_eq_getElem hk, Option.getD_some]
  rw [List.getD_eq_getElem?_getD, List.getElem?_eq_getElem hz, Option.getD_some]
  rw [List.getD_eq_getElem?_getD, List.getElem?_eq_getElem hp, Option.getD_some]
  simp [detect, durations, pairCycles, List.enum_eq_enumFrom, List.getElem_enumFrom,
    List.getElem_zip]

lemma sorted_sltEq {l : List Sample} (hs : List.Pairwise sleq l)
    (hnd : (l.map Sample.t).Nodup) : List.Pairwise sltEq l := by
  have hne : List.Pairwise (fun a b : Sample => a.t ≠ b.t) l :=
    List.pairwise_map.mp hnd
  exact (hs.and hne).imp (fun h => Or.inl (lt_of_le_of_ne h.1 h.2))

lemma sortSamples_eq_of_perm (s1 s2 : List Sample) (hperm : s1.Perm s2)
    (hnd : (s1.map Sample.t).Nodup) : sortSamples s1 = sortSamples s2 := by
  have h1 : List.Pairwise sleq (sortSamples s1) := List.sorted_insertionSort sleq s1
  have h2 : List.Pairwise sleq (sortSamples s2) := List.sorted_insertionSort sleq s2
  have p1 : (sortSamples s1).Perm s1 := List.perm_insertionSort sleq s1
  have p2 : (sortSamples s2).Perm s2 := List.perm_insertionSort sleq s2
  have hperm2 : (sortSamples s1).Perm (sortSamples s2) :=
    p1.trans (hperm.trans p2.symm)
  have hnd1 : ((sortSamples s1).map Sample.t).Nodup :=
    ((p1.map Sample.t).nodup_iff).mpr hnd
  have hnd2 : ((sortSamples s2).map Sample.t).Nodup :=
    ((p2.map Sample.t).nodup_iff).mpr (((hperm.map Sample.t).nodup_iff).mp hnd)
  exact List.eq_of_perm_of_sorted hperm2 (sorted_sltEq h1 hnd1) (sorted_sltEq h2 hnd2)

lemma detect_eq_of_perm (s1 s2 : List Sample) (hperm : s1.Perm s2)
    (hnd : (s1.map Sample.t).Nodup) : detect s1 = detect s2 := by
  unfold detect durations
  rw [sortSamples_eq_of_perm s1 s2 hperm hnd]

lemma digitRunsAux_head : ∀ (n : ℕ) (l : List Char), l.length ≤ n →
    (digitRunsAux n l).head? = firstDigitRunSpec l
  | 0, l, h => by
      have hnil : l = [] := List.eq_nil_of_length_eq_zero (Nat.le_zero.mp h)
      simp [hnil, digitRunsAux, firstDigitRunSpec]
  | _ + 1, [], _ => rfl
  | n + 1, c :: cs, h => by
      by_cases hd : c.isDigit = true
      · simp [digitRunsAux, firstDigitRunSpec, hd]
      · have hlen : cs.length ≤ n := by simpa using h
        simp only [digitRunsAux, firstDigitRunSpec, hd, Bool.false_eq_true, if_false]
        exact digitRunsAux_head n cs hlen

lemma digitRuns_head (l : List Char) : (digitRuns l).head? = firstDigitRunSpec l :=
  digitRunsAux_head l.length l le_rfl

lemma get_start_cycle_eq_spec (l : List Char) :
    get_start_cycle_from_name l
      = match firstDigitRunSpec l with
        | some ds => digitsToNat ds
        | none => 1 := by
  unfold get_start_cycle_from_name
  rw [← digitRuns_head l]
  cases digitRuns l <;> rfl

lemma firstDigitRunSpec_eq_none {l : List Char}
    (h : ∀ c ∈ l, c.isDigit = false) : firstDigitRunSpec l = none := by
  induction l with
  | nil => rfl
  | cons c cs ih =>
      have hc : c.isDigit = false := h c (List.mem_cons_self _ _)
      simp only [firstDigitRunSpec, hc, Bool.false_eq_true, if_false]
      exact ih (fun x hx => h x (List.mem_cons_of_mem _ hx))

lemma isPrefixOf_append (n rest : List Char) : n.isPrefixOf (n ++ rest) = true := by
  rw [List.isPrefixOf_iff_prefix]
  exact List.prefix_append n rest

lemma hasSubstr_of_isPrefix {n h : List Char} (hp : n.isPrefixOf h = true) :
    hasSubstr n h = true := by
  cases h with
  | nil => simpa [hasSubstr] using hp
  | cons c cs => simp [hasSubstr, hp]

lemma hasSubstr_append_left (x : List Char) {n h : List Char}
    (hh : hasSubstr n h = true) : hasSubstr n (x ++ h) = true := by
  induction x with
  | nil => simpa using hh
  | cons c cs ih =>
      simp only [List.cons_append, hasSubstr, Bool.or_eq_true]
      exact Or.inr ih

lemma hasSubstr_renderCols {c : List Char} {cols : List (List Char)}
    (hc : c ∈ cols) : hasSubstr c (renderCols cols) = true := by
  induction cols with
  | nil => cases hc
  | cons d ds ih =>
      rcases List.mem_cons.mp hc with rfl | hm
      · exact hasSubstr_of_isPrefix (isPrefixOf_append c (',' :: ' ' :: renderCols ds))
      · have hr : renderCols (d :: ds) = (d ++ [',', ' ']) ++ renderCols ds := by
          simp [renderCols]
        rw [hr]
        exact hasSubstr_append_left _ (ih hm)

lemma hasSubstr_appErrMsg {c : List Char} {cols : List (List Char)}
    (hc : c ∈ cols) : hasSubstr c (appErrMsg cols) = true :=
  hasSubstr_append_left _ (hasSubstr_renderCols hc)

lemma vgt_nan_left (x : Val) : vgt Val.nan x = false := by cases x <;> rfl

lemma vgt_nan_right (x : Val) : vgt x Val.nan = false := by cases x <;> rfl

lemma vle_nan_left (x : Val) : vle Val.nan x = false := by cases x <;> rfl

lemma peakCond_nan (pv nv : Val) : peakCond pv Val.nan nv = false := by
  simp [peakCond, vgt_nan_left]

lemma zeroCond_nan : zeroCond Val.nan = false := by
  simp [zeroCond, vle_nan_left]

lemma zeroCond_nonpos {q : ℚ} (hq : q ≤ 0) : zeroCond (Val.num q) = true := by
  simp only [zeroCond, vle, decide_eq_true_eq]
  linarith

lemma peakCond_nonpos (pv nv : Val) {q : ℚ} (hq : q ≤ 0) :
    peakCond pv (Val.num q) nv = false := by
  have hh : vgt (Val.num q) (Val.num (1/2)) = false := by
    simp only [vgt, decide_eq_false_iff_not, not_lt]
    linarith
  unfold peakCond
  rw [hh, Bool.and_false]

lemma stepSeek_nan (st : DetState) (pv nv : Val) (t : ℚ) :
    stepSeek st pv Val.nan nv t = st := by
  by_cases hs : st.looking_for_peak = true
  · simp [stepSeek, hs, peakCond_nan]
  · have hs2 : st.looking_for_peak = false := by simpa using hs
    simp [stepSeek, hs2, zeroCond_nan]

lemma mainLoop_nan : ∀ (pv : Val) (rest : List Sample) (st : DetState),
    (∀ x ∈ rest, x.v = Val.nan) → mainLoop pv rest st = st
  | _, [], _, _ => rfl
  | _, [_], _, _ => rfl
  | pv, cur :: next :: tail, st, h => by
      have hcur : cur.v = Val.nan := h cur (List.mem_cons_self _ _)
      rw [show mainLoop pv (cur :: next :: tail) st
            = mainLoop cur.v (next :: tail) (stepSeek st pv cur.v next.v cur.t) from rfl]
      rw [hcur, stepSeek_nan]
      exact mainLoop_nan Val.nan (next :: tail) st
        (fun x hx => h x (List.mem_cons_of_mem _ hx))

lemma detect_nan (samples : List Sample) (h : ∀ x ∈ samples, x.v = Val.nan) :
    detect samples = [] := by
  have hsorted : ∀ x ∈ sortSamples samples, x.v = Val.nan := fun x hx =>
    h x ((List.perm_insertionSort sleq samples).mem_iff.mp hx)
  unfold detect durations
  cases hs2 : sortSamples samples with
  | nil => simp [scanSorted, pairCycles, initState]
  | cons x0 rest0 =>
    cases rest0 with
    | nil => simp [scanSorted, pairCycles, initState]
    | cons x1 rest =>
      have hmem : ∀ x ∈ x0 :: x1 :: rest, x.v = Val.nan := by
        rw [← hs2]
        exact hsorted
      have h0 : x0.v = Val.nan := hmem x0 (List.mem_cons_self _ _)
      have hle : leftEdge x0 x1 = initState := by
        simp [leftEdge, h0, vgt_nan_left]
      have hml : mainLoop x0.v (x1 :: rest) (leftEdge x0 x1) = initState := by
        rw [hle]
        exact mainLoop_nan _ _ _ (fun x hx => hmem x (List.mem_cons_of_mem _ hx))
      simp [scanSorted, hml, rightEdge, initState, pairCycles]

lemma numberFile_head {start_num n : ℕ} (h : 0 < n) :
    (numberFile start_num n).head? = some start_num := by
  unfold numberFile
  cases n with
  | zero => exact absurd h (lt_irrefl 0)
  | succ m => simp [List.range_succ_eq_map]

lemma numberFile_getLast {start_num n : ℕ} (h : 0 < n) :
    (numberFile start_num n).getLast? = some (start_num + (n - 1)) := by
  unfold numberFile
  cases n with
  | zero => exact absurd h (lt_irrefl 0)
  | succ m =>
      rw [List.range_succ, List.map_append]
      simp [List.getLast?_concat]

lemma detectNumbered_map_fst (forced : Option ℕ) (samples : List Sample) :
    (detectNumbered forced samples).map Prod.fst
      = numberFile (forced.getD 1) (durations samples).length := by
  unfold detectNumbered numberFile
  rw [List.map_map]
  have h1 : ((durations samples).enum.map
        (Prod.fst ∘ fun kd : ℕ × ℚ => (forced.getD 1 + kd.1, kd.2)))
      = ((durations samples).enum.map Prod.fst).map
          (fun k => forced.getD 1 + k) := by
    rw [List.map_map]
    rfl
  rw [h1, List.enum_eq_enumFrom, List.enumFrom_map_fst, ← List.range_eq_range']

lemma detect_exOneCycle : detect exOneCycle = [(1, 30)] := by
  norm_num [exOneCycle, detect, durations, pairCycles, scanSorted, sortSamples,
    List.insertionSort, List.orderedInsert, sleq, mainLoop, stepSeek, peakCond,
    zeroCond, leftEdge, rightEdge, vgt, vle, initState, List.getLastD]

lemma scan_exThreePeaks_peaks :
    (scanSorted (sortSamples exThreePeaks)).peaks_arr = [1, 3, 5] := by
  norm_num [exThreePeaks, pairCycles, scanSorted, sortSamples,
    List.insertionSort, List.orderedInsert, sleq, mainLoop, stepSeek, peakCond,
    zeroCond, leftEdge, rightEdge, vgt, vle, initState, List.getLastD]

lemma scan_exThreePeaks_zeros :
    (scanSorted (sortSamples exThreePeaks)).zeros_arr = [2, 4] := by
  norm_num [exThreePeaks, pairCycles, scanSorted, sortSamples,
    List.insertionSort, List.orderedInsert, sleq, mainLoop, stepSeek, peakCond,
    zeroCond, leftEdge, rightEdge, vgt, vle, initState, List.getLastD]

lemma detect_exThreePeaks : detect exThreePeaks = [(1, 60), (2, 60)] := by
  norm_num [exThreePeaks, detect, durations, pairCycles, scanSorted, sortSamples,
    List.insertionSort, List.orderedInsert, sleq, mainLoop, stepSeek, peakCond,
    zeroCond, leftEdge, rightEdge, vgt, vle, initState, List.getLastD,
    List.enum_eq_enumFrom, List.enumFrom]

lemma detect_exTie : detect exTie = [(1, 0)] := by
  norm_num [exTie, detect, durations, pairCycles, scanSorted, sortSamples,
    List.insertionSort, List.orderedInsert, sleq, mainLoop, stepSeek, peakCond,
    zeroCond, leftEdge, rightEdge, vgt, vle, initState, List.getLastD]

lemma detect_exTieSwapped : detect exTieSwapped = [(1, 60), (2, 60)] := by
  norm_num [exTieSwapped, detect, durations, pairCycles, scanSorted, sortSamples,
    List.insertionSort, List.orderedInsert, sleq, mainLoop, stepSeek, peakCond,
    zeroCond, leftEdge, rightEdge, vgt, vle, initState, List.getLastD,
    List.enum_eq_enumFrom, List.enumFrom]

lemma detect_exNegative : detect exNegative = [(1, 120)] := by
  norm_num [exNegative, detect, durations, pairCycles, scanSorted, sortSamples,
    List.insertionSort, List.orderedInsert, sleq, mainLoop, stepSeek, peakCond,
    zeroCond, leftEdge, rightEdge, vgt, vle, initState, List.getLastD]

lemma scan_exNegative_zeros :
    (scanSorted (sortSamples exNegative)).zeros_arr = [2] := by
  norm_num [exNegative, pairCycles, scanSorted, sortSamples,
    List.insertionSort, List.orderedInsert, sleq, mainLoop, stepSeek, peakCond,
    zeroCond, leftEdge, rightEdge, vgt, vle, initState, List.getLastD]

/-- C1: Alternation invariant of the detector's state machine. A zero-crossing
is only recorded in SEEKING_ZERO mode, which is only entered by recording a
peak; the length invariant `lenInv` holds after the left-edge check and is
preserved by every interior-scan step, so at every point of the scan the
recorded zero-crossings never outnumber the recorded peaks, and after the
right-edge check the zero count still does not exceed the peak count (hence
exceeds it by at most the 0 or 1 the right edge can contribute). -/
theorem alternation_invariant :
    (∀ (st : DetState) (pv cv nv : Val) (t : ℚ), st.looking_for_peak = true →
      (stepSeek st pv cv nv t).zeros_arr = st.zeros_arr) ∧
    (∀ (st : DetState) (pv cv nv : Val) (t : ℚ), st.looking_for_peak = true →
      (stepSeek st pv cv nv t).looking_for_peak = false →
      (stepSeek st pv cv nv t).peaks_arr = st.peaks_arr ++ [t]) ∧
    (∀ x0 x1 : Sample, lenInv (leftEdge x0 x1)) ∧
    (∀ (st : DetState) (pv cv nv : Val) (t : ℚ), lenInv st →
      lenInv (stepSeek st pv cv nv t)) ∧
    (∀ st : DetState, lenInv st → st.zeros_arr.length ≤ st.peaks_arr.length) ∧
    (∀ samples : List Sample,
      (scanSorted (sortSamples samples)).zeros_arr.length
        ≤ (scanSorted (sortSamples samples)).peaks_arr.length) :=
  ⟨stepSeek_zeros_of_seeking, stepSeek_peaks_of_switch, leftEdge_lenInv,
    stepSeek_lenInv, lenInv_zeros_le,
    fun samples => scanSorted_zeros_le (sortSamples samples)⟩

/-- Witness for C1 at a concrete state: one pending peak, seeking a zero. -/
theorem alternation_invariant_witness :
    lenInv (stepSeek ⟨[0], [], false⟩ Val.nan (Val.num 0) Val.nan 1) :=
  alternation_invariant.2.2.2.1 ⟨[0], [], false⟩ Val.nan (Val.num 0) Val.nan 1
    (by simp [lenInv])

/-- C2: Positional pairing with truncation and fixed unit conversion: detect
produces exactly min(number of peaks, number of zero-crossings) records, the
k-th record pairs the k-th peak with the k-th zero-crossing and carries
duration (t_zero - t_peak) * 60; a peak at t = 1 with a zero at t = 3/2
yields 30 seconds, and 3 peaks with 2 zero-crossings yield exactly 2
records, the unmatched peak silently dropped. -/
theorem pairing_truncation :
    (∀ samples : List Sample, (detect samples).length
        = min (scanSorted (sortSamples samples)).peaks_arr.length
            (scanSorted (sortSamples samples)).zeros_arr.length) ∧
    (∀ (samples : List Sample) (k : ℕ), k < (detect samples).length →
      (detect samples).getD k (0, 0)
        = (k + 1, ((scanSorted (sortSamples samples)).zeros_arr.getD k 0
                   - (scanSorted (sortSamples samples)).peaks_arr.getD k 0) * 60)) ∧
    detect exOneCycle = [(1, 30)] ∧
    (scanSorted (sortSamples exThreePeaks)).peaks_arr = [1, 3, 5] ∧
    (scanSorted (sortSamples exThreePeaks)).zeros_arr = [2, 4] ∧
    detect exThreePeaks = [(1, 60), (2, 60)] :=
  ⟨detect_length_eq_min, detect_getD, detect_exOneCycle, scan_exThreePeaks_peaks,
    scan_exThreePeaks_zeros, detect_exThreePeaks⟩

/-- Witness for C2: the first record of the one-cycle example, computed by
the indexing clause. -/
theorem pairing_truncation_witness :
    0 < (detect exOneCycle).length ∧
    (detect exOneCycle).getD 0 (0, 0)
      = (0 + 1, ((scanSorted (sortSamples exOneCycle)).zeros_arr.getD 0 0
                 - (scanSorted (sortSamples exOneCycle)).peaks_arr.getD 0 0) * 60) :=
  ⟨by rw [detect_exOneCycle]; norm_num,
   pairing_truncation.2.1 exOneCycle 0 (by rw [detect_exOneCycle]; norm_num)⟩

/-- C3: Edge-of-series special cases. If the first sorted sample's voltage
strictly exceeds 0.5 and the second's, it is recorded as a peak (and remains
the first recorded peak of the whole scan) and the mode switches to
SEEKING_ZERO; if after the interior scan the mode is still SEEKING_ZERO and
the last sample's voltage is at most 0.05, the last sample's timestamp is
recorded as the final zero-crossing. -/
theorem edge_special_cases :
    (∀ x0 x1 : Sample, vgt x0.v (Val.num (1/2)) = true → vgt x0.v x1.v = true →
      leftEdge x0 x1 = ⟨[x0.t], [], false⟩) ∧
    (∀ (x0 x1 : Sample) (rest : List Sample),
      vgt x0.v (Val.num (1/2)) = true → vgt x0.v x1.v = true →
      (scanSorted (x0 :: x1 :: rest)).peaks_arr.head? = some x0.t) ∧
    (∀ (st : DetState) (lastS : Sample), st.looking_for_peak = false →
      zeroCond lastS.v = true →
      (rightEdge st lastS).zeros_arr = st.zeros_arr ++ [lastS.t]) ∧
    (∀ (x0 x1 : Sample) (rest : List Sample),
      (mainLoop x0.v (x1 :: rest) (leftEdge x0 x1)).looking_for_peak = false →
      zeroCond (rest.getLastD x1).v = true →
      (scanSorted (x0 :: x1 :: rest)).zeros_arr.getLast?
        = some (rest.getLastD x1).t) := by
  have hre : ∀ (st : DetState) (lastS : Sample), st.looking_for_peak = false →
      zeroCond lastS.v = true →
      (rightEdge st lastS).zeros_arr = st.zeros_arr ++ [lastS.t] := by
    intro st lastS h1 h2
    simp [rightEdge, h1, h2]
  have hleft : ∀ x0 x1 : Sample, vgt x0.v (Val.num (1/2)) = true →
      vgt x0.v x1.v = true → leftEdge x0 x1 = ⟨[x0.t], [], false⟩ := by
    intro x0 x1 h1 h2
    have hcond : (vgt x0.v (Val.num (1/2)) && vgt x0.v x1.v) = true := by
      rw [h1, h2]
      rfl
    unfold leftEdge
    rw [if_pos hcond]
  refine ⟨hleft, ?_, hre, ?_⟩
  · intro x0 x1 rest h1 h2
    have hle : leftEdge x0 x1 = ⟨[x0.t], [], false⟩ := hleft x0 x1 h1 h2
    obtain ⟨l, hl⟩ := mainLoop_peaks_mono x0.v (x1 :: rest) (leftEdge x0 x1)
    show (rightEdge (mainLoop x0.v (x1 :: rest) (leftEdge x0 x1))
        (rest.getLastD x1)).peaks_arr.head? = some x0.t
    rw [rightEdge_peaks, hl, hle]
    rfl
  · intro x0 x1 rest h1 h2
    show (rightEdge (mainLoop x0.v (x1 :: rest) (leftEdge x0 x1))
        (rest.getLastD x1)).zeros_arr.getLast? = some (rest.getLastD x1).t
    rw [hre _ _ h1 h2]
    exact List.getLast?_concat _

/-- Witness for C3: a series opening at 0.9 then 0.8 records t = 0 as a peak. -/
theorem edge_special_cases_witness :
    leftEdge ⟨0, Val.num (9/10)⟩ ⟨1, Val.num (8/10)⟩ = ⟨[0], [], false⟩ :=
  edge_special_cases.1 ⟨0, Val.num (9/10)⟩ ⟨1, Val.num (8/10)⟩
    (by norm_num [vgt]) (by norm_num [vgt])

/-- C4 (counterexample): with duplicate timestamps, a permutation of the same
series gives different results — `exTie` and its tie-swapped permutation
produce one cycle of duration 0 versus two cycles of duration 60. -/
theorem resort_counterexample :
    exTie.Perm exTieSwapped ∧ detect exTie ≠ detect exTieSwapped := by
  constructor
  · exact List.Perm.cons _ (List.Perm.swap _ _ _)
  · rw [detect_exTie, detect_exTieSwapped]
    simp

/-- C4 (amended): for every series whose timestamps are pairwise distinct,
running detect on the series and on any permutation of it yields identical
results, because the internal sort then canonicalises the order. -/
theorem resort_idempotent (s1 s2 : List Sample) (hperm : s1.Perm s2)
    (hnd : (s1.map Sample.t).Nodup) : detect s1 = detect s2 :=
  detect_eq_of_perm s1 s2 hperm hnd

/-- Witness for C4 on a two-element series and its reversal. -/
theorem resort_idempotent_witness :
    detect [⟨0, Val.num 1⟩, ⟨1, Val.num 0⟩]
      = detect [⟨1, Val.num 0⟩, ⟨0, Val.num 1⟩] :=
  resort_idempotent _ _ (List.Perm.swap _ _ _) (by norm_num)

/-- C5: Continuous-counter numbering. The per-file numbers are
`start_num + k` as in the code; threading the spec's running total `T`
(starting at 0, increased by each file's count) numbers each file
`T + 1 .. T + n`, and counts [3, 5, 2] give ranges [1-3, 4-8, 9-10]. -/
theorem continuous_numbering :
    (∀ (forced : Option ℕ) (samples : List Sample),
      (detectNumbered forced samples).map Prod.fst
        = numberFile (forced.getD 1) (durations samples).length) ∧
    (∀ (counts : List ℕ) (T n : ℕ),
      assignContinuous (n :: counts) T
        = numberFile (T + 1) n :: assignContinuous counts (T + n)) ∧
    (∀ T n : ℕ, 0 < n →
      (numberFile (T + 1) n).head? = some (T + 1) ∧
      (numberFile (T + 1) n).getLast? = some (T + n)) ∧
    assignContinuous [3, 5, 2] 0 = [[1, 2, 3], [4, 5, 6, 7, 8], [9, 10]] := by
  refine ⟨detectNumbered_map_fst, fun _ _ _ => rfl, ?_, ?_⟩
  · intro T n h
    refine ⟨numberFile_head h, ?_⟩
    rw [numberFile_getLast h]
    congr 1
    omega
  · rfl

/-- Witness for C5: the first file of a batch with 3 cycles spans 1 .. 3. -/
theorem continuous_numbering_witness :
    (numberFile (0 + 1) 3).head? = some (0 + 1) ∧
    (numberFile (0 + 1) 3).getLast? = some (0 + 3) :=
  continuous_numbering.2.2.1 0 3 (by norm_num)

/-- C6: Threshold boundary behaviour. A voltage of exactly 0.5 never passes
the peak test (strict >) at any interior index, while a voltage of exactly
0.05 passes the zero test (≤) and is recorded whenever a zero is sought. -/
theorem threshold_boundary :
    (∀ pv nv : Val, peakCond pv (Val.num (1/2)) nv = false) ∧
    zeroCond (Val.num (1/20)) = true ∧
    (∀ (st : DetState) (pv nv : Val) (t : ℚ), st.looking_for_peak = true →
      stepSeek st pv (Val.num (1/2)) nv t = st) ∧
    (∀ (st : DetState) (pv nv : Val) (t : ℚ), st.looking_for_peak = false →
      (stepSeek st pv (Val.num (1/20)) nv t).zeros_arr
        = st.zeros_arr ++ [t]) := by
  have hpk : ∀ pv nv : Val, peakCond pv (Val.num (1/2)) nv = false := by
    intro pv nv
    have hh : vgt (Val.num (1/2)) (Val.num (1/2)) = false := by
      norm_num [vgt]
    unfold peakCond
    rw [hh, Bool.and_false]
  have hz : zeroCond (Val.num (1/20)) = true := by norm_num [zeroCond, vle]
  refine ⟨hpk, hz, ?_, ?_⟩
  · intro st pv nv t hs
    have hc : ¬(peakCond pv (Val.num (1/2)) nv = true) := by
      rw [hpk pv nv]
      exact Bool.false_ne_true
    unfold stepSeek
    rw [if_pos hs, if_neg hc]
  · intro st pv nv t hs
    have hng : ¬(st.looking_for_peak = true) := by simp [hs]
    unfold stepSeek
    rw [if_neg hng, if_pos hz]

/-- Witness for C6: a 0.5-volt sample leaves a peak-seeking state unchanged. -/
theorem threshold_boundary_witness :
    stepSeek ⟨[], [], true⟩ Val.nan (Val.num (1/2)) Val.nan 7 = ⟨[], [], true⟩ :=
  threshold_boundary.2.2.1 ⟨[], [], true⟩ Val.nan Val.nan 7 rfl

/-- C7: Name-derived offset extraction. The extractor is a total function
returning the first maximal run of decimal digits parsed as an integer, and
1 when the identifier has no digits; in particular 1001 for
"Data_1001-2000.csv" and 1 for "trial.csv". -/
theorem name_derived_offset :
    get_start_cycle_from_name ("Data_1001-2000.csv".toList) = 1001 ∧
    get_start_cycle_from_name ("trial.csv".toList) = 1 ∧
    (∀ l : List Char, get_start_cycle_from_name l
        = match firstDigitRunSpec l with
          | some ds => digitsToNat ds
          | none => 1) ∧
    (∀ l : List Char, (∀ c ∈ l, c.isDigit = false) →
      get_start_cycle_from_name l = 1) := by
  refine ⟨by decide, by decide, get_start_cycle_eq_spec, ?_⟩
  intro l h
  rw [get_start_cycle_eq_spec l, firstDigitRunSpec_eq_none h]

/-- Witness for C7: an identifier without digits gets the default offset 1. -/
theorem name_derived_offset_witness :
    get_start_cycle_from_name ("trial-run.csv".toList) = 1 :=
  name_derived_offset.2.2.2 ("trial-run.csv".toList) (by decide)

/-- C8: Every duration in detect's output is non-negative: the detector
sorts by timestamp, and each recorded zero-crossing comes at or after its
positionally paired peak, so (t_zero - t_peak) * 60 is at least 0.
Timestamps are modelled as rationals (the claim's no-NaN hypothesis). -/
theorem durations_nonneg (samples : List Sample) (r : ℕ × ℚ)
    (hr : r ∈ detect samples) : 0 ≤ r.2 := by
  unfold detect at hr
  obtain ⟨⟨k, d⟩, hkd, rfl⟩ := List.mem_map.mp hr
  rw [List.enum_eq_enumFrom, List.enumFrom_eq_zip_range'] at hkd
  exact durations_nonneg_all samples d (List.of_mem_zip hkd).2

/-- Witness for C8: the single record of the one-cycle example. -/
theorem durations_nonneg_witness : (0 : ℚ) ≤ ((1 : ℕ), (30 : ℚ)).2 :=
  durations_nonneg exOneCycle (1, 30) (by rw [detect_exOneCycle]; simp)

/-- C9 (counterexample): the batch variant of `src/test.py` reports a
configuration error that names only the file, not the available column
set — for the lone column "XYZ" the message does not contain "XYZ". -/
theorem column_resolution_counterexample :
    process_discharge_data_multi ⟨[('X' :: 'Y' :: 'Z' :: [])], fun _ _ => []⟩
        ("f.csv".toList) none
      = Except.error (testErrMsg ("f.csv".toList)) ∧
    hasSubstr ('X' :: 'Y' :: 'Z' :: []) (testErrMsg ("f.csv".toList)) = false := by
  exact ⟨rfl, by decide⟩

/-- C9 (amended): when a time or voltage column cannot be resolved, both
functions return a configuration error and no cycle results, without the
detection scan ever running (the error depends only on the column names);
`src/app.py`'s error names the available column set, while `src/test.py`'s
batch variant names the file instead; when both columns resolve, no error
is returned. -/
theorem column_resolution :
    (∀ f : Frame, (findTimeCol f.colNames = none ∨ findVoltCol f.colNames = none) →
      process_discharge_data f = Except.error (appErrMsg f.colNames) ∧
      ∀ c ∈ f.colNames, hasSubstr c (appErrMsg f.colNames) = true) ∧
    (∀ (f : Frame) (filename : List Char) (forced : Option ℕ),
      (findTimeCol f.colNames = none ∨ findVoltCol f.colNames = none) →
      process_discharge_data_multi f filename forced
        = Except.error (testErrMsg filename)) ∧
    (∀ (f : Frame) (tc vc : List Char), findTimeCol f.colNames = some tc →
      findVoltCol f.colNames = some vc →
      process_discharge_data f = Except.ok (detect (f.seriesOf tc vc))) := by
  refine ⟨?_, ?_, ?_⟩
  · intro f h
    refine ⟨?_, fun c hc => hasSubstr_appErrMsg hc⟩
    unfold process_discharge_data
    cases ht : findTimeCol f.colNames with
    | none => rfl
    | some tc =>
        cases hv : findVoltCol f.colNames with
        | none => rfl
        | some vc =>
            rcases h with h | h
            · rw [ht] at h
              cases h
            · rw [hv] at h
              cases h
  · intro f filename forced h
    unfold process_discharge_data_multi
    cases ht : findTimeCol f.colNames with
    | none => rfl
    | some tc =>
        cases hv : findVoltCol f.colNames with
        | none => rfl
        | some vc =>
            rcases h with h | h
            · rw [ht] at h
              cases h
            · rw [hv] at h
              cases h
  · intro f tc vc ht hv
    unfold process_discharge_data
    rw [ht, hv]

/-- Witness for C9 on a one-column frame that resolves neither column. -/
theorem column_resolution_witness :
    process_discharge_data ⟨[('a' :: 'b' :: [])], fun _ _ => []⟩
      = Except.error (appErrMsg [('a' :: 'b' :: [])]) :=
  (column_resolution.1 ⟨[('a' :: 'b' :: [])], fun _ _ => []⟩
    (Or.inl (by decide))).1

/-- C10 (counterexample): a negative voltage does not fail the zero test —
in `exNegative` the last sample at voltage -1 is recorded as a
zero-crossing and closes a cycle, so the detector returns one cycle, not
zero. -/
theorem nan_negative_counterexample :
    zeroCond (Val.num (-1)) = true ∧
    (scanSorted (sortSamples exNegative)).zeros_arr = [2] ∧
    detect exNegative = [(1, 120)] :=
  ⟨by norm_num [zeroCond, vle], scan_exNegative_zeros, detect_exNegative⟩

/-- C10 (amended): the detector is a total function on malformed numeric
data. NaN voltages fail both the peak and the zero test (an all-NaN series
yields zero cycles, not an error); negative voltages fail the peak test but
pass the zero test. -/
theorem nan_negative_handling :
    (∀ pv nv : Val, peakCond pv Val.nan nv = false) ∧
    zeroCond Val.nan = false ∧
    (∀ (pv nv : Val) (q : ℚ), q < 0 → peakCond pv (Val.num q) nv = false) ∧
    (∀ q : ℚ, q < 0 → zeroCond (Val.num q) = true) ∧
    (∀ samples : List Sample, (∀ x ∈ samples, x.v = Val.nan) →
      detect samples = []) :=
  ⟨peakCond_nan, zeroCond_nan,
    fun pv nv _q hq => peakCond_nonpos pv nv (le_of_lt hq),
    fun _q hq => zeroCond_nonpos (le_of_lt hq), detect_nan⟩

/-- Witness for C10: a series whose only sample has NaN voltage yields no
cycles. -/
theorem nan_negative_handling_witness : detect [⟨0, Val.nan⟩] = [] :=
  nan_negative_handling.2.2.2.2 [⟨0, Val.nan⟩] (by simp)

end Battery
